import Mathlib

/-!
Verification of the `backward_fetching` walker of `src/main.py`
(`hyperliquid_fetcher`).  The Python program walks backward over a
two-level (day, hour) time index, fetching one remote object per hour
from an object store, streaming it through an LZ4 decompressor into a
local file, and applying a bounded-retry state machine on misses.

The shallow embedding below models:
* `datetime` dates as proleptic-Gregorian `Date` records with the
  chronological (lexicographic) order and the `timedelta(days=1)`
  decrement `prevDay`;
* the S3 client, the LZ4 decompressor and the local file as external
  collaborators: the fetch result for each (day, hour) is given by an
  oracle function, the decompressor by a stateful chunk function, and
  the file by the list of sink operations the walker performs on it;
* the two nested `while` loops as fuel-indexed recursions producing a
  trace of fetch attempts plus either a final state, a propagated
  error, or an out-of-fuel marker.
-/

namespace HyperliquidFetcher

/-- Calendar date (proleptic Gregorian), modelling the date part of a
Python `datetime`.  The year is an `Int` so that decrementing is total. -/
structure Date where
  year : Int
  month : Nat
  day : Nat
deriving DecidableEq

/-- Chronological order on dates, as the lexicographic order on
(year, month, day); this is how Python compares `datetime` values. -/
def Date.key (d : Date) : Lex (Int × Lex (Nat × Nat)) :=
  toLex (d.year, toLex (d.month, d.day))

instance : LT Date :=
  ⟨fun a b => a.key < b.key⟩

instance : LE Date :=
  ⟨fun a b => a.key ≤ b.key⟩

instance (a b : Date) : Decidable (a < b) :=
  decidable_of_iff (a.key < b.key) Iff.rfl

instance (a b : Date) : Decidable (a ≤ b) :=
  decidable_of_iff (a.key ≤ b.key) Iff.rfl

/-- Gregorian leap-year rule, as used by Python `datetime`. -/
def isLeapYear (y : Int) : Bool :=
  y % 4 = 0 && (y % 100 ≠ 0 || y % 400 = 0)

/-- Number of days of a month in the Gregorian calendar. -/
def daysInMonth (y : Int) (m : Nat) : Nat :=
  if m = 2 then (if isLeapYear y then 29 else 28)
  else if m = 4 ∨ m = 6 ∨ m = 9 ∨ m = 11 then 30
  else 31

/-- The previous calendar day, modelling `current_date -= timedelta(days=1)`. -/
def prevDay (d : Date) : Date :=
  if 1 < d.day then ⟨d.year, d.month, d.day - 1⟩
  else if 1 < d.month then ⟨d.year, d.month - 1, daysInMonth d.year (d.month - 1)⟩
  else ⟨d.year - 1, 12, 31⟩

/-- Left-pad the decimal rendering of a number with zeros. -/
def padNat (width n : Nat) : String :=
  String.mk (List.replicate (width - (toString n).length) '0') ++ toString n

/-- The `strftime("%Y%m%d")` rendering of a date. -/
def Date.yyyymmdd (d : Date) : String :=
  padNat 4 d.year.toNat ++ padNat 2 d.month ++ padNat 2 d.day

/-- Result of one `get_object` call plus the subsequent streaming phase,
as observed by the walker:
* `success chunks`: the request succeeded and `iter_chunks` yields
  `chunks`, all of which are streamed to the file without error;
* `clientError code`: `get_object` raised `botocore` `ClientError` whose
  `response["Error"]["Code"]` is `code` (`none` when absent);
* `streamExn chunks k tag`: the request succeeded with body `chunks`,
  but an unexpected exception (identified by `tag`) was raised during
  the write phase (lines 66-73 of `src/main.py`), after the first `k`
  of its operations — create-or-truncate, one write per chunk, the
  trailing flush write, `local_f.flush()` — had completed.  The latest
  failure point is the `os.fsync` call itself (in which case everything
  up to and including the flush has completed, which `k` saturating at
  that point represents), so the completed operations never include the
  fsync.  An exception after a completed fsync could only come from the
  progress `print`; that is logging, not part of the
  streaming/decompression/writing error class, and is not modelled. -/
inductive FetchOutcome where
  | success (chunks : List (List Nat))
  | clientError (code : Option String)
  | streamExn (chunks : List (List Nat)) (k : Nat) (tag : Nat)
deriving DecidableEq

/-- An error propagated out of the walk (a re-raised exception). -/
inductive ErrTok where
  | clientErr (code : Option String)
  | unexpected (tag : Nat)
deriving DecidableEq

/-- Operations the walker performs on the local file for one hour.
`openTrunc` is `open(local_file, "wb")` (create-or-truncate); closing is
implicit in the `with` block. -/
inductive SinkOp where
  | openTrunc (path : String)
  | write (data : List Nat)
  | flush
  | fsync
deriving DecidableEq

/-- Stateful streaming decompressor collaborator
(`lz4.frame.LZ4FrameDecompressor`), re-instantiated per object. -/
structure Decompressor where
  State : Type
  init : State
  decompress : State → List Nat → List Nat × State

/-- The `for chunk in streaming_body.iter_chunks(...)` loop: one `write`
of the decompressed output per chunk, threading the decompressor state. -/
def writeChunks (D : Decompressor) : D.State → List (List Nat) → List SinkOp × D.State
  | st, [] => ([], st)
  | st, c :: cs =>
    let out := D.decompress st c
    let rest := writeChunks D out.2 cs
    (SinkOp.write out.1 :: rest.1, rest.2)

/-- The full durable write sequence of a successful fetch, lines 66-73
of `src/main.py`: create-or-truncate, write every decompressed chunk,
write the trailing `decompress(b"")` output, flush, fsync. -/
def successOps (D : Decompressor) (file : String) (chunks : List (List Nat)) : List SinkOp :=
  let w := writeChunks D D.init chunks
  SinkOp.openTrunc file :: w.1 ++
    [SinkOp.write (D.decompress w.2 []).1, SinkOp.flush, SinkOp.fsync]

/-- The sink operations performed for one fetch attempt with the given
outcome: on success the full durable sequence; on a `ClientError` from
`get_object` the file is never opened (lines 59-66, `open` comes after
the request); on an unexpected write-phase exception the completed
operations are the first `k` of the sequence, where the failure point
ranges over every operation up to and including the fsync call — so at
most everything before the fsync (`dropLast`) has completed. -/
def opsFor (D : Decompressor) (file : String) : FetchOutcome → List SinkOp
  | .success chunks => successOps D file chunks
  | .clientError _ => []
  | .streamExn chunks k _ => (successOps D file chunks).dropLast.take k

/-- Classify an outcome as fatal (the error the walker re-raises) or
recoverable (`None`): `NoSuchKey` client errors and successes are
recoverable, everything else is fatal. -/
def fatalErr : FetchOutcome → Option ErrTok
  | .success _ => none
  | .clientError code => if code = some "NoSuchKey" then none else some (.clientErr code)
  | .streamExn _ _ tag => some (.unexpected tag)

/-- `max_hourly_retries` of `src/main.py` line 43. -/
def max_hourly_retries : Nat := 3

/-- `max_daily_retries` of `src/main.py` line 44. -/
def max_daily_retries : Nat := 3

/-- Parameters of one invocation of `backward_fetching`, with the
object-store client and the decompressor abstracted as collaborators. -/
structure WalkConfig where
  coin : String
  output_path : String
  start_date : Date
  end_date : Date
  fetch : Date → Int → FetchOutcome
  D : Decompressor

/-- The walker's mutable state: cursor plus the two retry counters. -/
structure WalkState where
  current_date : Date
  current_hour : Int
  hourly_retry_count : Nat
  daily_retry_count : Nat
deriving DecidableEq

/-- The remote object key, `src/main.py` line 56:
`market_data/{YYYYMMDD}/{hour}/l2Book/{COIN}.lz4`, hour unpadded. -/
def s3KeyOf (coin : String) (d : Date) (h : Int) : String :=
  "market_data/" ++ d.yyyymmdd ++ "/" ++ toString h ++ "/l2Book/" ++ coin ++ ".lz4"

/-- The local destination, `src/main.py` line 57:
`os.path.join(output_path, f"{date_str}_{hour_str}_{coin}.txt")`. -/
def localFileOf (output_path coin : String) (d : Date) (h : Int) : String :=
  output_path ++ "/" ++ d.yyyymmdd ++ "_" ++ toString h ++ "_" ++ coin ++ ".txt"

/-- One fetch attempt as recorded in the walk trace: the walker state it
was issued from, the derived key and local path, the sink operations
performed, and the outcome. -/
structure Attempt where
  preDate : Date
  preHour : Int
  preHourly : Nat
  preDaily : Nat
  key : String
  localFile : String
  ops : List SinkOp
  outcome : FetchOutcome
deriving DecidableEq

/-- The attempt issued from state `s` (lines 54-64 of `src/main.py`). -/
def mkAttempt (cfg : WalkConfig) (s : WalkState) : Attempt :=
  { preDate := s.current_date
    preHour := s.current_hour
    preHourly := s.hourly_retry_count
    preDaily := s.daily_retry_count
    key := s3KeyOf cfg.coin s.current_date s.current_hour
    localFile := localFileOf cfg.output_path cfg.coin s.current_date s.current_hour
    ops := opsFor cfg.D (localFileOf cfg.output_path cfg.coin s.current_date s.current_hour)
      (cfg.fetch s.current_date s.current_hour)
    outcome := cfg.fetch s.current_date s.current_hour }

/-- An attempt that abandons the day: a `NoSuchKey` miss that either
exhausts the hourly budget (lines 86-97) or underflows the hour below 0
by the minus-2 skip (lines 98-107). -/
def Attempt.Abandons (a : Attempt) : Prop :=
  a.outcome = .clientError (some "NoSuchKey") ∧
    (max_hourly_retries ≤ a.preHourly + 1 ∨ a.preHour - 2 < 0)

instance (a : Attempt) : Decidable a.Abandons :=
  inferInstanceAs (Decidable (_ = _ ∧ (_ ∨ _)))

/-- Number of day-abandonment attempts in a trace. -/
def countAbandons (t : List Attempt) : Nat :=
  t.countP fun a => decide a.Abandons

/-- The cursor the walker moves to after a non-fatal attempt. -/
def attemptPost (a : Attempt) : Date × Int :=
  match a.outcome with
  | .success _ => (a.preDate, a.preHour - 1)
  | .clientError code =>
    if code = some "NoSuchKey" then
      if max_hourly_retries ≤ a.preHourly + 1 then (prevDay a.preDate, 0)
      else if a.preHour - 2 < 0 then (prevDay a.preDate, 0)
      else (a.preDate, a.preHour - 2)
    else (a.preDate, a.preHour)
  | .streamExn _ _ _ => (a.preDate, a.preHour)

/-- Result of one iteration of the inner loop body: either continue with
a successor state, or re-raise a fatal error. -/
inductive StepRes where
  | next (a : Attempt) (s' : WalkState)
  | raise (a : Attempt) (e : ErrTok)
deriving DecidableEq

/-- One iteration of the inner `while` body (lines 54-115 of
`src/main.py`), given that the loop guard holds:
* success: reset `hourly_retry_count`, decrement `current_hour` by 1;
* `ClientError` with code `NoSuchKey`: increment `hourly_retry_count`;
  if it reaches `max_hourly_retries`, abandon the day (previous day,
  hour 0, hourly counter reset, daily counter incremented); otherwise
  skip two hours back, and on underflow below 0 abandon the day without
  resetting the hourly counter;
* any other `ClientError`, or an unexpected exception while streaming:
  re-raise. -/
def innerStep (cfg : WalkConfig) (s : WalkState) : StepRes :=
  match cfg.fetch s.current_date s.current_hour with
  | .success _ =>
    .next (mkAttempt cfg s)
      { s with hourly_retry_count := 0, current_hour := s.current_hour - 1 }
  | .clientError code =>
    if code = some "NoSuchKey" then
      if max_hourly_retries ≤ s.hourly_retry_count + 1 then
        .next (mkAttempt cfg s) ⟨prevDay s.current_date, 0, 0, s.daily_retry_count + 1⟩
      else
        if s.current_hour - 2 < 0 then
          .next (mkAttempt cfg s)
            ⟨prevDay s.current_date, 0, s.hourly_retry_count + 1, s.daily_retry_count + 1⟩
        else
          .next (mkAttempt cfg s)
            { s with current_hour := s.current_hour - 2,
                     hourly_retry_count := s.hourly_retry_count + 1 }
    else .raise (mkAttempt cfg s) (.clientErr code)
  | .streamExn _ _ tag => .raise (mkAttempt cfg s) (.unexpected tag)

/-- Result of running one of the loops: the trace of attempts issued,
together with either the state at normal loop exit (`finished`), a
propagated error (`raised`), or an out-of-fuel marker (`outOfFuel`). -/
inductive Res where
  | outOfFuel (trace : List Attempt) (s : WalkState)
  | raised (trace : List Attempt) (e : ErrTok)
  | finished (trace : List Attempt) (s : WalkState)
deriving DecidableEq

/-- The trace of a loop result. -/
def Res.trace : Res → List Attempt
  | .outOfFuel t _ => t
  | .raised t _ => t
  | .finished t _ => t

/-- The state a loop result carries, when it did not raise. -/
def Res.final? : Res → Option WalkState
  | .outOfFuel _ s => some s
  | .raised _ _ => none
  | .finished _ s => some s

/-- Prepend an attempt to the trace of a result. -/
def Res.consTrace (a : Attempt) : Res → Res
  | .outOfFuel t s => .outOfFuel (a :: t) s
  | .raised t e => .raised (a :: t) e
  | .finished t s => .finished (a :: t) s

/-- Prepend a list of attempts to the trace of a result. -/
def Res.appendTrace (t : List Attempt) : Res → Res
  | .outOfFuel t' s => .outOfFuel (t ++ t') s
  | .raised t' e => .raised (t ++ t') e
  | .finished t' s => .finished (t ++ t') s

/-- The inner `while` loop, line 53 of `src/main.py`:
`while current_hour >= 0 and daily_retry_count < max_daily_retries`,
as a fuel-indexed recursion. -/
def innerLoop (cfg : WalkConfig) : Nat → WalkState → Res
  | 0, s => .outOfFuel [] s
  | fuel + 1, s =>
    if 0 ≤ s.current_hour ∧ s.daily_retry_count < max_daily_retries then
      match innerStep cfg s with
      | .raise a e => .raised [a] e
      | .next a s' => (innerLoop cfg fuel s').consTrace a
    else .finished [] s

/-- Lines 117-119 of `src/main.py`: after the inner loop exits, if
`current_hour < 0 and hourly_retry_count == 0`, decrement the day and
reset the hour to 23; otherwise leave the state unchanged. -/
def dayRollover (s : WalkState) : WalkState :=
  if s.current_hour < 0 ∧ s.hourly_retry_count = 0
    then { s with current_date := prevDay s.current_date, current_hour := 23 }
    else s

/-- The outer `while` loop, line 49 of `src/main.py`:
`while current_date >= start_date_dt and daily_retry_count < max_daily_retries`.
Each iteration resets `hourly_retry_count = 0` and `current_hour = 23`
(lines 50-51), runs the inner loop, and afterwards applies `dayRollover`
(lines 117-119). -/
def outerLoop (cfg : WalkConfig) : Nat → WalkState → Res
  | 0, s => .outOfFuel [] s
  | fuel + 1, s =>
    if cfg.start_date ≤ s.current_date ∧ s.daily_retry_count < max_daily_retries then
      match innerLoop cfg (fuel + 1)
          { s with current_hour := 23, hourly_retry_count := 0 } with
      | .raised t e => .raised t e
      | .outOfFuel t s1 => .outOfFuel t s1
      | .finished t s1 => (outerLoop cfg fuel (dayRollover s1)).appendTrace t
    else .finished [] s

/-- The whole walk, `backward_fetching` of `src/main.py`: the cursor
starts at `end_date` and both counters at 0. -/
def backward_fetching (cfg : WalkConfig) (fuel : Nat) : Res :=
  outerLoop cfg fuel ⟨cfg.end_date, 23, 0, 0⟩

/-- Terminal outcome of a walk that did not raise. -/
inductive WalkResult where
  | completed
  | exhausted
deriving DecidableEq

/-- The terminal report, lines 121-126 of `src/main.py`: "exhausted"
exactly when `daily_retry_count >= max_daily_retries` at loop exit. -/
def walkResultOf (s : WalkState) : WalkResult :=
  if max_daily_retries ≤ s.daily_retry_count then .exhausted else .completed

/-! ### Order lemmas for dates -/

theorem dle_refl (a : Date) : a ≤ a :=
  le_refl a.key

theorem dle_trans {a b c : Date} (h1 : a ≤ b) (h2 : b ≤ c) : a ≤ c :=
  le_trans (show a.key ≤ b.key from h1) (show b.key ≤ c.key from h2)

theorem dlt_trans {a b c : Date} (h1 : a < b) (h2 : b < c) : a < c :=
  lt_trans (show a.key < b.key from h1) (show b.key < c.key from h2)

theorem dlt_of_le_of_lt {a b c : Date} (h1 : a ≤ b) (h2 : b < c) : a < c :=
  lt_of_le_of_lt (show a.key ≤ b.key from h1) (show b.key < c.key from h2)

theorem dlt_of_lt_of_le {a b c : Date} (h1 : a < b) (h2 : b ≤ c) : a < c :=
  lt_of_lt_of_le (show a.key < b.key from h1) (show b.key ≤ c.key from h2)

theorem dle_of_lt {a b : Date} (h : a < b) : a ≤ b :=
  le_of_lt (show a.key < b.key from h)

theorem dlt_irrefl (a : Date) : ¬a < a :=
  fun h => lt_irrefl a.key h

theorem dlt_of_not_le {a b : Date} (h : ¬a ≤ b) : b < a :=
  show b.key < a.key from not_le.mp fun hh => h hh

theorem Date.key_inj {a b : Date} (h : a.key = b.key) : a = b := by
  cases a
  cases b
  simp only [Date.key, toLex_inj, Prod.mk.injEq] at h
  obtain ⟨h1, h2, h3⟩ := h
  subst h1
  subst h2
  subst h3
  rfl

theorem dlt_or_eq_of_le {a b : Date} (h : a ≤ b) : a < b ∨ a = b := by
  rcases lt_or_eq_of_le (show a.key ≤ b.key from h) with h' | h'
  · exact Or.inl h'
  · exact Or.inr (Date.key_inj h')

theorem prevDay_lt (d : Date) : prevDay d < d := by
  show (prevDay d).key < d.key
  unfold prevDay
  split_ifs with h1 h2
  all_goals
    simp only [Date.key, Prod.Lex.lt_iff, toLex_inj, Prod.mk.injEq, lt_self_iff_false,
      true_and, false_or, false_and, or_false]
  · omega
  · omega
  · omega

theorem prevDay_le (d : Date) : prevDay d ≤ d :=
  dle_of_lt (prevDay_lt d)

/-! ### The cursor order: lexicographic on (day, hour) -/

/-- Lexicographic comparison of (day, hour) cursors. -/
def cursorLE (p q : Date × Int) : Prop :=
  p.1 < q.1 ∨ (p.1 = q.1 ∧ p.2 ≤ q.2)

theorem cursorLE_refl (p : Date × Int) : cursorLE p p :=
  Or.inr ⟨rfl, le_refl _⟩

theorem cursorLE_trans {p q r : Date × Int} (h1 : cursorLE p q) (h2 : cursorLE q r) :
    cursorLE p r := by
  rcases h1 with h1 | ⟨e1, h1⟩
  · rcases h2 with h2 | ⟨e2, h2⟩
    · exact Or.inl (dlt_trans h1 h2)
    · exact Or.inl (e2 ▸ h1)
  · rcases h2 with h2 | ⟨e2, h2⟩
    · exact Or.inl (e1 ▸ h2)
    · exact Or.inr ⟨e1.trans e2, le_trans h1 h2⟩

theorem cursorLE_date {p q : Date × Int} (h : cursorLE p q) : p.1 ≤ q.1 := by
  rcases h with h | ⟨e, _⟩
  · exact dle_of_lt h
  · exact e ▸ dle_refl p.1

theorem cursorLE_mono_date {p : Date × Int} {d d' : Date} {h : Int}
    (hle : cursorLE p (d, h)) (hd : d ≤ d') : cursorLE p (d', h) := by
  rcases dlt_or_eq_of_le hd with hlt | rfl
  · refine Or.inl ?_
    rcases hle with h1 | ⟨e1, _⟩
    · exact dlt_trans h1 hlt
    · exact e1 ▸ hlt
  · exact hle

theorem cursorLE_of_date_lt {p : Date × Int} {q : Date × Int} (h : p.1 < q.1) :
    cursorLE p q :=
  Or.inl h

/-! ### Simp lemmas for loop results -/

@[simp]
theorem Res.trace_consTrace (a : Attempt) (r : Res) : (r.consTrace a).trace = a :: r.trace := by
  cases r <;> rfl

@[simp]
theorem Res.final?_consTrace (a : Attempt) (r : Res) : (r.consTrace a).final? = r.final? := by
  cases r <;> rfl

@[simp]
theorem Res.trace_appendTrace (t : List Attempt) (r : Res) :
    (r.appendTrace t).trace = t ++ r.trace := by
  cases r <;> rfl

@[simp]
theorem Res.final?_appendTrace (t : List Attempt) (r : Res) :
    (r.appendTrace t).final? = r.final? := by
  cases r <;> rfl

theorem Res.consTrace_eq_finished {a : Attempt} {r : Res} {t : List Attempt} {s : WalkState} :
    r.consTrace a = .finished t s ↔ ∃ t', t = a :: t' ∧ r = .finished t' s := by
  cases r <;> simp [Res.consTrace] <;> aesop

theorem Res.consTrace_eq_raised {a : Attempt} {r : Res} {t : List Attempt} {e : ErrTok} :
    r.consTrace a = .raised t e ↔ ∃ t', t = a :: t' ∧ r = .raised t' e := by
  cases r <;> simp [Res.consTrace] <;> aesop

theorem Res.appendTrace_eq_finished {t0 : List Attempt} {r : Res} {t : List Attempt}
    {s : WalkState} :
    r.appendTrace t0 = .finished t s ↔ ∃ t', t = t0 ++ t' ∧ r = .finished t' s := by
  cases r <;> simp [Res.appendTrace] <;> aesop

theorem Res.appendTrace_eq_raised {t0 : List Attempt} {r : Res} {t : List Attempt} {e : ErrTok} :
    r.appendTrace t0 = .raised t e ↔ ∃ t', t = t0 ++ t' ∧ r = .raised t' e := by
  cases r <;> simp [Res.appendTrace] <;> aesop

/-! ### Case analysis of one inner-loop iteration -/

theorem innerStep_next_cases {cfg : WalkConfig} {s : WalkState} {a : Attempt} {s' : WalkState}
    (h : innerStep cfg s = .next a s') :
    a = mkAttempt cfg s ∧
      ((∃ ch, cfg.fetch s.current_date s.current_hour = .success ch ∧
          s' = { s with hourly_retry_count := 0, current_hour := s.current_hour - 1 }) ∨
        (cfg.fetch s.current_date s.current_hour = .clientError (some "NoSuchKey") ∧
          ((max_hourly_retries ≤ s.hourly_retry_count + 1 ∧
              s' = ⟨prevDay s.current_date, 0, 0, s.daily_retry_count + 1⟩) ∨
            (¬max_hourly_retries ≤ s.hourly_retry_count + 1 ∧ s.current_hour - 2 < 0 ∧
              s' = ⟨prevDay s.current_date, 0, s.hourly_retry_count + 1,
                s.daily_retry_count + 1⟩) ∨
            (¬max_hourly_retries ≤ s.hourly_retry_count + 1 ∧ ¬s.current_hour - 2 < 0 ∧
              s' = ⟨s.current_date, s.current_hour - 2, s.hourly_retry_count + 1,
                s.daily_retry_count⟩)))) := by
  unfold innerStep at h
  split at h
  next ch heq =>
    injection h with h1 h2
    exact ⟨h1.symm, Or.inl ⟨ch, heq, h2.symm⟩⟩
  next code heq =>
    split_ifs at h with hNSK hBudget hUnder
    · subst hNSK
      injection h with h1 h2
      exact ⟨h1.symm, Or.inr ⟨heq, Or.inl ⟨hBudget, h2.symm⟩⟩⟩
    · subst hNSK
      injection h with h1 h2
      exact ⟨h1.symm, Or.inr ⟨heq, Or.inr (Or.inl ⟨hBudget, hUnder, h2.symm⟩)⟩⟩
    · subst hNSK
      injection h with h1 h2
      exact ⟨h1.symm, Or.inr ⟨heq, Or.inr (Or.inr ⟨hBudget, hUnder, h2.symm⟩)⟩⟩
  next ch k tag heq =>
    exact absurd h (by simp)

theorem innerStep_raise_cases {cfg : WalkConfig} {s : WalkState} {a : Attempt} {e : ErrTok}
    (h : innerStep cfg s = .raise a e) :
    a = mkAttempt cfg s ∧ fatalErr (cfg.fetch s.current_date s.current_hour) = some e := by
  unfold innerStep at h
  split at h
  next ch heq =>
    exact absurd h (by simp)
  next code heq =>
    split_ifs at h with hNSK
    injection h with h1 h2
    refine ⟨h1.symm, ?_⟩
    simp [heq, fatalErr, hNSK, h2]
  next ch k tag heq =>
    injection h with h1 h2
    refine ⟨h1.symm, ?_⟩
    simp [heq, fatalErr, h2]

theorem innerStep_next_post {cfg : WalkConfig} {s : WalkState} {a : Attempt} {s' : WalkState}
    (h : innerStep cfg s = .next a s') :
    (s'.current_date, s'.current_hour) = attemptPost a ∧
      cursorLE (s'.current_date, s'.current_hour) (s.current_date, s.current_hour) ∧
      s'.current_date ≤ s.current_date := by
  obtain ⟨ha, hc⟩ := innerStep_next_cases h
  subst ha
  rcases hc with ⟨ch, hf, rfl⟩ | ⟨hf, ⟨hb, rfl⟩ | ⟨hb, hu, rfl⟩ | ⟨hb, hu, rfl⟩⟩
  · refine ⟨?_, Or.inr ⟨rfl, show s.current_hour - 1 ≤ s.current_hour by omega⟩, dle_refl _⟩
    simp [attemptPost, mkAttempt, hf]
  · refine ⟨?_, Or.inl (prevDay_lt _), prevDay_le _⟩
    simp [attemptPost, mkAttempt, hf, hb]
  · refine ⟨?_, Or.inl (prevDay_lt _), prevDay_le _⟩
    simp [attemptPost, mkAttempt, hf, hb, hu]
  · refine ⟨?_, Or.inr ⟨rfl, show s.current_hour - 2 ≤ s.current_hour by omega⟩, dle_refl _⟩
    simp [attemptPost, mkAttempt, hf, hb, hu]

theorem innerStep_next_daily {cfg : WalkConfig} {s : WalkState} {a : Attempt} {s' : WalkState}
    (h : innerStep cfg s = .next a s') :
    s'.daily_retry_count = s.daily_retry_count + (if a.Abandons then 1 else 0) := by
  obtain ⟨ha, hc⟩ := innerStep_next_cases h
  subst ha
  rcases hc with ⟨ch, hf, rfl⟩ | ⟨hf, ⟨hb, rfl⟩ | ⟨hb, hu, rfl⟩ | ⟨hb, hu, rfl⟩⟩
  · simp [Attempt.Abandons, mkAttempt, hf]
  · simp [Attempt.Abandons, mkAttempt, hf, hb]
  · simp [Attempt.Abandons, mkAttempt, hf, hb, hu]
  · simp [Attempt.Abandons, mkAttempt, hf, hb, hu]

theorem innerStep_next_fatal {cfg : WalkConfig} {s : WalkState} {a : Attempt} {s' : WalkState}
    (h : innerStep cfg s = .next a s') : fatalErr a.outcome = none := by
  obtain ⟨ha, hc⟩ := innerStep_next_cases h
  subst ha
  rcases hc with ⟨ch, hf, rfl⟩ | ⟨hf, _⟩
  · simp [fatalErr, mkAttempt, hf]
  · simp [fatalErr, mkAttempt, hf]

/-- The state invariant maintained at every inner-loop head: the hour
never exceeds 23, a negative hour only occurs with a zeroed hourly
counter (which is why lines 117-119 fire whenever the hour underflows),
and the daily counter never exceeds its bound. -/
def Inv (s : WalkState) : Prop :=
  s.current_hour ≤ 23 ∧ (s.current_hour < 0 → s.hourly_retry_count = 0) ∧
    s.daily_retry_count ≤ max_daily_retries

theorem innerStep_next_Inv {cfg : WalkConfig} {s : WalkState} {a : Attempt} {s' : WalkState}
    (hInv : Inv s) (hdaily : s.daily_retry_count < max_daily_retries)
    (h : innerStep cfg s = .next a s') : Inv s' := by
  obtain ⟨h23, hneg, hd3⟩ := hInv
  obtain ⟨ha, hc⟩ := innerStep_next_cases h
  rcases hc with ⟨ch, hf, rfl⟩ | ⟨hf, ⟨hb, rfl⟩ | ⟨hb, hu, rfl⟩ | ⟨hb, hu, rfl⟩⟩ <;>
    refine ⟨?_, ?_, ?_⟩ <;> simp <;> omega

theorem Attempt.abandons_post {a : Attempt} (h : a.Abandons) :
    attemptPost a = (prevDay a.preDate, 0) := by
  obtain ⟨ho, hcond⟩ := h
  by_cases hb : max_hourly_retries ≤ a.preHourly + 1
  · simp [attemptPost, ho, hb]
  · have hu : a.preHour - 2 < 0 := by
      rcases hcond with hc | hc
      · exact absurd hc hb
      · exact hc
    simp [attemptPost, ho, hb, hu]

/-! ### Unfolding lemmas for the two loops -/

theorem innerLoop_zero {cfg : WalkConfig} {s : WalkState} :
    innerLoop cfg 0 s = .outOfFuel [] s :=
  rfl

theorem innerLoop_succ_of_guard {cfg : WalkConfig} {fuel : Nat} {s : WalkState}
    (hg : 0 ≤ s.current_hour ∧ s.daily_retry_count < max_daily_retries) :
    innerLoop cfg (fuel + 1) s =
      match innerStep cfg s with
      | .raise a e => .raised [a] e
      | .next a s' => (innerLoop cfg fuel s').consTrace a := by
  rw [innerLoop, if_pos hg]

theorem innerLoop_succ_of_not_guard {cfg : WalkConfig} {fuel : Nat} {s : WalkState}
    (hg : ¬(0 ≤ s.current_hour ∧ s.daily_retry_count < max_daily_retries)) :
    innerLoop cfg (fuel + 1) s = .finished [] s := by
  rw [innerLoop, if_neg hg]

theorem innerLoop_succ_next {cfg : WalkConfig} {fuel : Nat} {s : WalkState} {a : Attempt}
    {s' : WalkState}
    (hg : 0 ≤ s.current_hour ∧ s.daily_retry_count < max_daily_retries)
    (hs : innerStep cfg s = .next a s') :
    innerLoop cfg (fuel + 1) s = (innerLoop cfg fuel s').consTrace a := by
  rw [innerLoop_succ_of_guard hg, hs]

theorem innerLoop_succ_raise {cfg : WalkConfig} {fuel : Nat} {s : WalkState} {a : Attempt}
    {e : ErrTok}
    (hg : 0 ≤ s.current_hour ∧ s.daily_retry_count < max_daily_retries)
    (hs : innerStep cfg s = .raise a e) :
    innerLoop cfg (fuel + 1) s = .raised [a] e := by
  rw [innerLoop_succ_of_guard hg, hs]

theorem outerLoop_zero {cfg : WalkConfig} {s : WalkState} :
    outerLoop cfg 0 s = .outOfFuel [] s :=
  rfl

theorem outerLoop_succ_of_guard {cfg : WalkConfig} {fuel : Nat} {s : WalkState}
    (hg : cfg.start_date ≤ s.current_date ∧ s.daily_retry_count < max_daily_retries) :
    outerLoop cfg (fuel + 1) s =
      match innerLoop cfg (fuel + 1) { s with current_hour := 23, hourly_retry_count := 0 } with
      | .raised t e => .raised t e
      | .outOfFuel t s1 => .outOfFuel t s1
      | .finished t s1 => (outerLoop cfg fuel (dayRollover s1)).appendTrace t := by
  rw [outerLoop, if_pos hg]

theorem outerLoop_succ_of_not_guard {cfg : WalkConfig} {fuel : Nat} {s : WalkState}
    (hg : ¬(cfg.start_date ≤ s.current_date ∧ s.daily_retry_count < max_daily_retries)) :
    outerLoop cfg (fuel + 1) s = .finished [] s := by
  rw [outerLoop, if_neg hg]

theorem outerLoop_succ_oof {cfg : WalkConfig} {fuel : Nat} {s : WalkState} {t : List Attempt}
    {s1 : WalkState}
    (hg : cfg.start_date ≤ s.current_date ∧ s.daily_retry_count < max_daily_retries)
    (hI : innerLoop cfg (fuel + 1) { s with current_hour := 23, hourly_retry_count := 0 } =
      .outOfFuel t s1) :
    outerLoop cfg (fuel + 1) s = .outOfFuel t s1 := by
  rw [outerLoop_succ_of_guard hg, hI]

theorem outerLoop_succ_raised {cfg : WalkConfig} {fuel : Nat} {s : WalkState} {t : List Attempt}
    {e : ErrTok}
    (hg : cfg.start_date ≤ s.current_date ∧ s.daily_retry_count < max_daily_retries)
    (hI : innerLoop cfg (fuel + 1) { s with current_hour := 23, hourly_retry_count := 0 } =
      .raised t e) :
    outerLoop cfg (fuel + 1) s = .raised t e := by
  rw [outerLoop_succ_of_guard hg, hI]

theorem outerLoop_succ_finished {cfg : WalkConfig} {fuel : Nat} {s : WalkState}
    {t : List Attempt} {s1 : WalkState}
    (hg : cfg.start_date ≤ s.current_date ∧ s.daily_retry_count < max_daily_retries)
    (hI : innerLoop cfg (fuel + 1) { s with current_hour := 23, hourly_retry_count := 0 } =
      .finished t s1) :
    outerLoop cfg (fuel + 1) s = (outerLoop cfg fuel (dayRollover s1)).appendTrace t := by
  rw [outerLoop_succ_of_guard hg, hI]

theorem dayRollover_daily (s : WalkState) :
    (dayRollover s).daily_retry_count = s.daily_retry_count := by
  unfold dayRollover
  split_ifs <;> rfl

theorem dayRollover_date_le (s : WalkState) : (dayRollover s).current_date ≤ s.current_date := by
  unfold dayRollover
  split_ifs
  · exact prevDay_le _
  · exact dle_refl _

theorem dayRollover_Inv {s : WalkState} (h : Inv s) : Inv (dayRollover s) := by
  obtain ⟨h23, hneg, hd⟩ := h
  unfold dayRollover
  split_ifs with hc
  · exact ⟨le_refl 23, fun hlt => absurd hlt (by simp), hd⟩
  · exact ⟨h23, hneg, hd⟩

/-! ### Generic trace membership and state invariants -/

theorem innerLoop_mem {cfg : WalkConfig} {P : WalkState → Prop}
    (hstep : ∀ s a s', P s → 0 ≤ s.current_hour →
      s.daily_retry_count < max_daily_retries → innerStep cfg s = .next a s' → P s') :
    ∀ fuel s, P s →
      (∀ a, a ∈ (innerLoop cfg fuel s).trace →
        ∃ s0, P s0 ∧ 0 ≤ s0.current_hour ∧ s0.daily_retry_count < max_daily_retries ∧
          a = mkAttempt cfg s0) ∧
      ∀ F, (innerLoop cfg fuel s).final? = some F → P F := by
  intro fuel
  induction fuel with
  | zero =>
    intro s hP
    constructor
    · intro a ha
      simp [innerLoop_zero, Res.trace] at ha
    · intro F hF
      simp only [innerLoop_zero, Res.final?, Option.some.injEq] at hF
      exact hF ▸ hP
  | succ fuel ih =>
    intro s hP
    by_cases hg : 0 ≤ s.current_hour ∧ s.daily_retry_count < max_daily_retries
    · rcases hs : innerStep cfg s with ⟨a, s'⟩ | ⟨a, e⟩
      · rw [innerLoop_succ_next hg hs]
        have hP' := hstep s a s' hP hg.1 hg.2 hs
        obtain ⟨hmem, hfin⟩ := ih s' hP'
        constructor
        · intro b hb
          rw [Res.trace_consTrace] at hb
          rcases List.mem_cons.mp hb with rfl | hb
          · exact ⟨s, hP, hg.1, hg.2, (innerStep_next_cases hs).1⟩
          · exact hmem b hb
        · intro F hF
          rw [Res.final?_consTrace] at hF
          exact hfin F hF
      · rw [innerLoop_succ_raise hg hs]
        constructor
        · intro b hb
          simp only [Res.trace, List.mem_singleton] at hb
          subst hb
          exact ⟨s, hP, hg.1, hg.2, (innerStep_raise_cases hs).1⟩
        · intro F hF
          simp [Res.final?] at hF
    · rw [innerLoop_succ_of_not_guard hg]
      constructor
      · intro a ha
        simp [Res.trace] at ha
      · intro F hF
        simp only [Res.final?, Option.some.injEq] at hF
        exact hF ▸ hP

theorem outerLoop_mem {cfg : WalkConfig} {P : WalkState → Prop}
    (hstep : ∀ s a s', P s → 0 ≤ s.current_hour →
      s.daily_retry_count < max_daily_retries → innerStep cfg s = .next a s' → P s')
    (hreset : ∀ s, P s → P { s with current_hour := 23, hourly_retry_count := 0 })
    (hroll : ∀ s, P s → P (dayRollover s)) :
    ∀ fuel s, P s →
      (∀ a, a ∈ (outerLoop cfg fuel s).trace →
        ∃ s0, P s0 ∧ 0 ≤ s0.current_hour ∧ s0.daily_retry_count < max_daily_retries ∧
          a = mkAttempt cfg s0) ∧
      ∀ F, (outerLoop cfg fuel s).final? = some F → P F := by
  intro fuel
  induction fuel with
  | zero =>
    intro s hP
    constructor
    · intro a ha
      simp [outerLoop_zero, Res.trace] at ha
    · intro F hF
      simp only [outerLoop_zero, Res.final?, Option.some.injEq] at hF
      exact hF ▸ hP
  | succ fuel ih =>
    intro s hP
    by_cases hg : cfg.start_date ≤ s.current_date ∧ s.daily_retry_count < max_daily_retries
    · obtain ⟨hImem, hIfin⟩ :=
        innerLoop_mem hstep (fuel + 1) { s with current_hour := 23, hourly_retry_count := 0 }
          (hreset s hP)
      rcases hI : innerLoop cfg (fuel + 1) { s with current_hour := 23, hourly_retry_count := 0 }
        with ⟨t, s1⟩ | ⟨t, e⟩ | ⟨t, s1⟩
      · rw [outerLoop_succ_oof hg hI]
        rw [hI] at hImem hIfin
        simp only [Res.trace] at hImem
        simp only [Res.final?, Option.some.injEq] at hIfin
        constructor
        · intro a ha
          exact hImem a ha
        · intro F hF
          simp only [Res.final?, Option.some.injEq] at hF
          exact hF ▸ hIfin s1 rfl
      · rw [outerLoop_succ_raised hg hI]
        rw [hI] at hImem
        simp only [Res.trace] at hImem
        constructor
        · intro a ha
          exact hImem a ha
        · intro F hF
          simp [Res.final?] at hF
      · rw [outerLoop_succ_finished hg hI]
        rw [hI] at hImem hIfin
        simp only [Res.trace] at hImem
        simp only [Res.final?, Option.some.injEq] at hIfin
        have hP1 : P s1 := hIfin s1 rfl
        obtain ⟨hOmem, hOfin⟩ := ih (dayRollover s1) (hroll s1 hP1)
        constructor
        · intro a ha
          rw [Res.trace_appendTrace] at ha
          rcases List.mem_append.mp ha with ha | ha
          · exact hImem a ha
          · exact hOmem a ha
        · intro F hF
          rw [Res.final?_appendTrace] at hF
          exact hOfin F hF
    · rw [outerLoop_succ_of_not_guard hg]
      constructor
      · intro a ha
        simp [Res.trace] at ha
      · intro F hF
        simp only [Res.final?, Option.some.injEq] at hF
        exact hF ▸ hP

/-! ### Monotonicity of the fetch cursor along a walk -/

/-- Relation between an attempt and any later attempt of the same walk:
the later attempt's cursor is lexicographically at or below the cursor
the walker moved to right after the earlier attempt. -/
def postBound (a b : Attempt) : Prop :=
  cursorLE (b.preDate, b.preHour) (attemptPost a)

theorem innerLoop_finished_not_guard {cfg : WalkConfig} :
    ∀ {fuel : Nat} {s : WalkState} {t : List Attempt} {F : WalkState},
      innerLoop cfg fuel s = .finished t F →
      ¬(0 ≤ F.current_hour ∧ F.daily_retry_count < max_daily_retries) := by
  intro fuel
  induction fuel with
  | zero =>
    intro s t F h
    simp [innerLoop_zero] at h
  | succ fuel ih =>
    intro s t F h
    by_cases hg : 0 ≤ s.current_hour ∧ s.daily_retry_count < max_daily_retries
    · rcases hs : innerStep cfg s with ⟨a, s'⟩ | ⟨a, e⟩
      · rw [innerLoop_succ_next hg hs, Res.consTrace_eq_finished] at h
        obtain ⟨t', rfl, h⟩ := h
        exact ih h
      · rw [innerLoop_succ_raise hg hs] at h
        simp at h
    · rw [innerLoop_succ_of_not_guard hg] at h
      injection h with h1 h2
      exact h2 ▸ hg

theorem outerLoop_finished_not_guard {cfg : WalkConfig} :
    ∀ {fuel : Nat} {s : WalkState} {t : List Attempt} {F : WalkState},
      outerLoop cfg fuel s = .finished t F →
      ¬(cfg.start_date ≤ F.current_date ∧ F.daily_retry_count < max_daily_retries) := by
  intro fuel
  induction fuel with
  | zero =>
    intro s t F h
    simp [outerLoop_zero] at h
  | succ fuel ih =>
    intro s t F h
    by_cases hg : cfg.start_date ≤ s.current_date ∧ s.daily_retry_count < max_daily_retries
    · rcases hI : innerLoop cfg (fuel + 1) { s with current_hour := 23, hourly_retry_count := 0 }
        with ⟨t1, s1⟩ | ⟨t1, e⟩ | ⟨t1, s1⟩
      · rw [outerLoop_succ_oof hg hI] at h
        simp at h
      · rw [outerLoop_succ_raised hg hI] at h
        simp at h
      · rw [outerLoop_succ_finished hg hI, Res.appendTrace_eq_finished] at h
        obtain ⟨t', rfl, h⟩ := h
        exact ih h
    · rw [outerLoop_succ_of_not_guard hg] at h
      injection h with h1 h2
      exact h2 ▸ hg

theorem outerLoop_trace_nil_of_daily {cfg : WalkConfig} {s : WalkState}
    (hd : max_daily_retries ≤ s.daily_retry_count) :
    ∀ fuel, (outerLoop cfg fuel s).trace = [] := by
  intro fuel
  cases fuel with
  | zero => rfl
  | succ fuel =>
    rw [outerLoop_succ_of_not_guard fun hg => absurd hg.2 (not_lt.mpr hd)]
    rfl

theorem innerLoop_Inv_final {cfg : WalkConfig} {fuel : Nat} {s : WalkState} {t : List Attempt}
    {F : WalkState} (hInv : Inv s) (h : innerLoop cfg fuel s = .finished t F) : Inv F := by
  obtain ⟨-, hfin⟩ :=
    innerLoop_mem (P := Inv) (fun s a s' hP h1 h2 hstep => innerStep_next_Inv hP h2 hstep)
      fuel s hInv
  refine hfin F ?_
  rw [h]
  rfl

theorem innerLoop_chain {cfg : WalkConfig} :
    ∀ fuel s,
      (∀ a, a ∈ (innerLoop cfg fuel s).trace →
        cursorLE (a.preDate, a.preHour) (s.current_date, s.current_hour)) ∧
      (innerLoop cfg fuel s).trace.Pairwise postBound ∧
      ∀ F, (innerLoop cfg fuel s).final? = some F →
        F.current_date ≤ s.current_date ∧
        ∀ a, a ∈ (innerLoop cfg fuel s).trace → F.current_date ≤ (attemptPost a).1 := by
  intro fuel
  induction fuel with
  | zero =>
    intro s
    refine ⟨?_, ?_, ?_⟩
    · intro a ha
      simp [innerLoop_zero, Res.trace] at ha
    · simp [innerLoop_zero, Res.trace]
    · intro F hF
      simp only [innerLoop_zero, Res.final?, Option.some.injEq] at hF
      subst hF
      refine ⟨dle_refl _, ?_⟩
      intro a ha
      simp [innerLoop_zero, Res.trace] at ha
  | succ fuel ih =>
    intro s
    by_cases hg : 0 ≤ s.current_hour ∧ s.daily_retry_count < max_daily_retries
    · rcases hs : innerStep cfg s with ⟨a, s'⟩ | ⟨a, e⟩
      · obtain ⟨ih1, ih2, ih3⟩ := ih s'
        obtain ⟨hpost_eq, hpost_le, hdate_le⟩ := innerStep_next_post hs
        have hmk := (innerStep_next_cases hs).1
        subst hmk
        rw [innerLoop_succ_next hg hs]
        refine ⟨?_, ?_, ?_⟩
        · intro b hb
          rw [Res.trace_consTrace] at hb
          rcases List.mem_cons.mp hb with rfl | hb
          · exact cursorLE_refl _
          · exact cursorLE_trans (ih1 b hb) hpost_le
        · rw [Res.trace_consTrace]
          refine List.Pairwise.cons ?_ ih2
          intro b hb
          show cursorLE (b.preDate, b.preHour) (attemptPost (mkAttempt cfg s))
          rw [← hpost_eq]
          exact ih1 b hb
        · intro F hF
          rw [Res.final?_consTrace] at hF
          obtain ⟨hF1, hF2⟩ := ih3 F hF
          refine ⟨dle_trans hF1 hdate_le, ?_⟩
          intro b hb
          rw [Res.trace_consTrace] at hb
          rcases List.mem_cons.mp hb with rfl | hb
          · rw [show (attemptPost (mkAttempt cfg s)).1 = s'.current_date by rw [← hpost_eq]]
            exact hF1
          · exact hF2 b hb
      · have hmk := (innerStep_raise_cases hs).1
        subst hmk
        rw [innerLoop_succ_raise hg hs]
        refine ⟨?_, ?_, ?_⟩
        · intro b hb
          simp only [Res.trace, List.mem_singleton] at hb
          subst hb
          exact cursorLE_refl _
        · simp [Res.trace]
        · intro F hF
          simp [Res.final?] at hF
    · rw [innerLoop_succ_of_not_guard hg]
      refine ⟨?_, ?_, ?_⟩
      · intro a ha
        simp [Res.trace] at ha
      · simp [Res.trace]
      · intro F hF
        simp only [Res.final?, Option.some.injEq] at hF
        subst hF
        refine ⟨dle_refl _, ?_⟩
        intro a ha
        simp [Res.trace] at ha

theorem outerLoop_chain {cfg : WalkConfig} :
    ∀ fuel s, Inv s →
      (∀ a, a ∈ (outerLoop cfg fuel s).trace →
        cursorLE (a.preDate, a.preHour) (s.current_date, 23)) ∧
      (outerLoop cfg fuel s).trace.Pairwise postBound := by
  intro fuel
  induction fuel with
  | zero =>
    intro s hInv
    constructor
    · intro a ha
      simp [outerLoop_zero, Res.trace] at ha
    · simp [outerLoop_zero, Res.trace]
  | succ fuel ih =>
    intro s hInv
    by_cases hg : cfg.start_date ≤ s.current_date ∧ s.daily_retry_count < max_daily_retries
    · have hInvR : Inv { s with current_hour := 23, hourly_retry_count := 0 } :=
        ⟨le_refl 23, fun hlt => absurd hlt (by simp), hInv.2.2⟩
      obtain ⟨hI1, hI2, hI3⟩ :=
        @innerLoop_chain cfg (fuel + 1)
          { s with current_hour := 23, hourly_retry_count := 0 }
      rcases hI : innerLoop cfg (fuel + 1) { s with current_hour := 23, hourly_retry_count := 0 }
        with ⟨t, s1⟩ | ⟨t, e⟩ | ⟨t, s1⟩
      · rw [outerLoop_succ_oof hg hI]
        rw [hI] at hI1 hI2
        simp only [Res.trace] at hI1 hI2
        exact ⟨fun a ha => hI1 a ha, hI2⟩
      · rw [outerLoop_succ_raised hg hI]
        rw [hI] at hI1 hI2
        simp only [Res.trace] at hI1 hI2
        exact ⟨fun a ha => hI1 a ha, hI2⟩
      · rw [outerLoop_succ_finished hg hI]
        rw [hI] at hI1 hI2 hI3
        simp only [Res.trace] at hI1 hI2
        simp only [Res.final?, Option.some.injEq] at hI3
        obtain ⟨hs1date, hs1post⟩ := hI3 s1 rfl
        have hInv1 : Inv s1 := innerLoop_Inv_final hInvR hI
        obtain ⟨hO1, hO2⟩ := ih (dayRollover s1) (dayRollover_Inv hInv1)
        constructor
        · intro a ha
          rw [Res.trace_appendTrace] at ha
          rcases List.mem_append.mp ha with ha | ha
          · exact hI1 a ha
          · exact cursorLE_mono_date (hO1 a ha)
              (dle_trans (dayRollover_date_le s1) hs1date)
        · rw [Res.trace_appendTrace, List.pairwise_append]
          refine ⟨hI2, hO2, ?_⟩
          intro a ha b hb
          by_cases hroll : s1.current_hour < 0 ∧ s1.hourly_retry_count = 0
          · have hrdate : (dayRollover s1).current_date = prevDay s1.current_date := by
              unfold dayRollover
              rw [if_pos hroll]
            have hble : b.preDate ≤ (dayRollover s1).current_date := cursorLE_date (hO1 b hb)
            rw [hrdate] at hble
            exact cursorLE_of_date_lt
              (dlt_of_le_of_lt hble
                (dlt_of_lt_of_le (prevDay_lt s1.current_date) (hs1post a ha)))
          · have hng := innerLoop_finished_not_guard hI
            have hd3 : max_daily_retries ≤ s1.daily_retry_count := by
              rcases lt_or_le s1.current_hour 0 with hh | hh
              · exact absurd ⟨hh, hInv1.2.1 hh⟩ hroll
              · rcases Nat.lt_or_ge s1.daily_retry_count max_daily_retries with hdd | hdd
                · exact absurd ⟨hh, hdd⟩ hng
                · exact hdd
            have hnil : (outerLoop cfg fuel (dayRollover s1)).trace = [] :=
              outerLoop_trace_nil_of_daily (by rw [dayRollover_daily]; exact hd3) fuel
            rw [hnil] at hb
            exact absurd hb (List.not_mem_nil b)
    · rw [outerLoop_succ_of_not_guard hg]
      constructor
      · intro a ha
        simp [Res.trace] at ha
      · simp [Res.trace]

/-! ### Counting day abandonments along a trace -/

theorem countAbandons_nil : countAbandons [] = 0 :=
  rfl

theorem countAbandons_cons (a : Attempt) (t : List Attempt) :
    countAbandons (a :: t) = countAbandons t + (if a.Abandons then 1 else 0) := by
  simp [countAbandons, List.countP_cons]

theorem countAbandons_append (t1 t2 : List Attempt) :
    countAbandons (t1 ++ t2) = countAbandons t1 + countAbandons t2 := by
  simp [countAbandons, List.countP_append]

theorem innerLoop_final_daily {cfg : WalkConfig} :
    ∀ {fuel : Nat} {s F : WalkState}, (innerLoop cfg fuel s).final? = some F →
      F.daily_retry_count =
        s.daily_retry_count + countAbandons (innerLoop cfg fuel s).trace := by
  intro fuel
  induction fuel with
  | zero =>
    intro s F hF
    simp only [innerLoop_zero, Res.final?, Option.some.injEq] at hF
    subst hF
    simp [innerLoop_zero, Res.trace, countAbandons]
  | succ fuel ih =>
    intro s F hF
    by_cases hg : 0 ≤ s.current_hour ∧ s.daily_retry_count < max_daily_retries
    · rcases hs : innerStep cfg s with ⟨a, s'⟩ | ⟨a, e⟩
      · rw [innerLoop_succ_next hg hs] at hF ⊢
        rw [Res.final?_consTrace] at hF
        rw [Res.trace_consTrace, countAbandons_cons]
        have hd := innerStep_next_daily hs
        have hrec := ih hF
        omega
      · rw [innerLoop_succ_raise hg hs] at hF
        simp [Res.final?] at hF
    · rw [innerLoop_succ_of_not_guard hg] at hF ⊢
      simp only [Res.final?, Option.some.injEq] at hF
      subst hF
      simp [Res.trace, countAbandons]

theorem innerLoop_pos_daily {cfg : WalkConfig} :
    ∀ {fuel : Nat} {s : WalkState} {t1 : List Attempt} {a : Attempt} {t2 : List Attempt},
      (innerLoop cfg fuel s).trace = t1 ++ a :: t2 →
      a.preDaily = s.daily_retry_count + countAbandons t1 := by
  intro fuel
  induction fuel with
  | zero =>
    intro s t1 a t2 h
    simp only [innerLoop_zero, Res.trace] at h
    cases t1 <;> simp at h
  | succ fuel ih =>
    intro s t1 a t2 h
    by_cases hg : 0 ≤ s.current_hour ∧ s.daily_retry_count < max_daily_retries
    · rcases hs : innerStep cfg s with ⟨a0, s'⟩ | ⟨a0, e⟩
      · rw [innerLoop_succ_next hg hs, Res.trace_consTrace] at h
        cases t1 with
        | nil =>
          simp only [List.nil_append] at h
          injection h with h1 h2
          subst h1
          have hmk := (innerStep_next_cases hs).1
          subst hmk
          simp [mkAttempt, countAbandons]
        | cons c t1' =>
          simp only [List.cons_append] at h
          injection h with h1 h2
          subst h1
          have hrec := ih h2
          have hd := innerStep_next_daily hs
          rw [countAbandons_cons]
          omega
      · rw [innerLoop_succ_raise hg hs] at h
        simp only [Res.trace] at h
        cases t1 with
        | nil =>
          simp only [List.nil_append] at h
          injection h with h1 h2
          subst h1
          have hmk := (innerStep_raise_cases hs).1
          subst hmk
          simp [mkAttempt, countAbandons]
        | cons c t1' =>
          simp only [List.cons_append] at h
          injection h with h1 h2
          cases t1' <;> simp at h2
    · rw [innerLoop_succ_of_not_guard hg] at h
      simp only [Res.trace] at h
      cases t1 <;> simp at h

theorem outerLoop_final_daily {cfg : WalkConfig} :
    ∀ {fuel : Nat} {s F : WalkState}, (outerLoop cfg fuel s).final? = some F →
      F.daily_retry_count =
        s.daily_retry_count + countAbandons (outerLoop cfg fuel s).trace := by
  intro fuel
  induction fuel with
  | zero =>
    intro s F hF
    simp only [outerLoop_zero, Res.final?, Option.some.injEq] at hF
    subst hF
    simp [outerLoop_zero, Res.trace, countAbandons]
  | succ fuel ih =>
    intro s F hF
    by_cases hg : cfg.start_date ≤ s.current_date ∧ s.daily_retry_count < max_daily_retries
    · rcases hI : innerLoop cfg (fuel + 1) { s with current_hour := 23, hourly_retry_count := 0 }
        with ⟨t, s1⟩ | ⟨t, e⟩ | ⟨t, s1⟩
      · rw [outerLoop_succ_oof hg hI] at hF ⊢
        simp only [Res.final?, Option.some.injEq] at hF
        subst hF
        have h1 := @innerLoop_final_daily cfg (fuel + 1)
          { s with current_hour := 23, hourly_retry_count := 0 } s1
          (by rw [hI]; rfl)
        rw [hI] at h1
        simp only [Res.trace] at h1 ⊢
        exact h1
      · rw [outerLoop_succ_raised hg hI] at hF
        simp [Res.final?] at hF
      · rw [outerLoop_succ_finished hg hI] at hF ⊢
        rw [Res.final?_appendTrace] at hF
        have hrec := ih hF
        have h1 := @innerLoop_final_daily cfg (fuel + 1)
          { s with current_hour := 23, hourly_retry_count := 0 } s1
          (by rw [hI]; rfl)
        rw [hI] at h1
        simp only [Res.trace] at h1
        have h1' : s1.daily_retry_count = s.daily_retry_count + countAbandons t := h1
        rw [dayRollover_daily] at hrec
        rw [Res.trace_appendTrace, countAbandons_append]
        omega
    · rw [outerLoop_succ_of_not_guard hg] at hF ⊢
      simp only [Res.final?, Option.some.injEq] at hF
      subst hF
      simp [Res.trace, countAbandons]

theorem outerLoop_pos_daily {cfg : WalkConfig} :
    ∀ {fuel : Nat} {s : WalkState} {t1 : List Attempt} {a : Attempt} {t2 : List Attempt},
      (outerLoop cfg fuel s).trace = t1 ++ a :: t2 →
      a.preDaily = s.daily_retry_count + countAbandons t1 := by
  intro fuel
  induction fuel with
  | zero =>
    intro s t1 a t2 h
    simp only [outerLoop_zero, Res.trace] at h
    cases t1 <;> simp at h
  | succ fuel ih =>
    intro s t1 a t2 h
    by_cases hg : cfg.start_date ≤ s.current_date ∧ s.daily_retry_count < max_daily_retries
    · rcases hI : innerLoop cfg (fuel + 1) { s with current_hour := 23, hourly_retry_count := 0 }
        with ⟨t, s1⟩ | ⟨t, e⟩ | ⟨t, s1⟩
      · rw [outerLoop_succ_oof hg hI] at h
        simp only [Res.trace] at h
        exact innerLoop_pos_daily
          (s := { s with current_hour := 23, hourly_retry_count := 0 })
          (by rw [hI]; exact h)
      · rw [outerLoop_succ_raised hg hI] at h
        simp only [Res.trace] at h
        exact innerLoop_pos_daily
          (s := { s with current_hour := 23, hourly_retry_count := 0 })
          (by rw [hI]; exact h)
      · rw [outerLoop_succ_finished hg hI] at h
        rw [Res.trace_appendTrace] at h
        have h1 := @innerLoop_final_daily cfg (fuel + 1)
          { s with current_hour := 23, hourly_retry_count := 0 } s1
          (by rw [hI]; rfl)
        rw [hI] at h1
        simp only [Res.trace] at h1
        have h1' : s1.daily_retry_count = s.daily_retry_count + countAbandons t := h1
        rcases List.append_eq_append_iff.mp h with ⟨u, hu1, hu2⟩ | ⟨u, hu1, hu2⟩
        · subst hu1
          have hrec := ih hu2
          rw [dayRollover_daily] at hrec
          rw [countAbandons_append]
          omega
        · cases u with
          | nil =>
            simp only [List.append_nil] at hu1
            simp only [List.nil_append] at hu2
            subst hu1
            have hrec := @ih (dayRollover s1) [] a t2 (by simpa using hu2.symm)
            rw [dayRollover_daily] at hrec
            rw [countAbandons_nil] at hrec
            omega
          | cons c u' =>
            injection hu2 with h3 h4
            subst hu1
            rw [h3]
            exact @innerLoop_pos_daily cfg (fuel + 1)
              { s with current_hour := 23, hourly_retry_count := 0 } t1 c u'
              (by rw [hI]; rfl)
    · rw [outerLoop_succ_of_not_guard hg] at h
      simp only [Res.trace] at h
      cases t1 <;> simp at h

/-! ### Fatal errors: propagation and the shape of raised traces -/

theorem innerLoop_raised {cfg : WalkConfig} :
    ∀ {fuel : Nat} {s : WalkState} {t : List Attempt} {e : ErrTok},
      innerLoop cfg fuel s = .raised t e →
      ∃ t' a, t = t' ++ [a] ∧ fatalErr a.outcome = some e ∧
        ∀ b, b ∈ t' → fatalErr b.outcome = none := by
  intro fuel
  induction fuel with
  | zero =>
    intro s t e h
    simp [innerLoop_zero] at h
  | succ fuel ih =>
    intro s t e h
    by_cases hg : 0 ≤ s.current_hour ∧ s.daily_retry_count < max_daily_retries
    · rcases hs : innerStep cfg s with ⟨a0, s'⟩ | ⟨a0, e0⟩
      · rw [innerLoop_succ_next hg hs, Res.consTrace_eq_raised] at h
        obtain ⟨t0, rfl, h⟩ := h
        obtain ⟨t', a, rfl, hfa, hall⟩ := ih h
        refine ⟨a0 :: t', a, rfl, hfa, ?_⟩
        intro b hb
        rcases List.mem_cons.mp hb with rfl | hb
        · exact innerStep_next_fatal hs
        · exact hall b hb
      · rw [innerLoop_succ_raise hg hs] at h
        injection h with h1 h2
        subst h1
        subst h2
        obtain ⟨hmk, hfe⟩ := innerStep_raise_cases hs
        subst hmk
        exact ⟨[], mkAttempt cfg s, rfl, hfe, fun b hb => absurd hb (List.not_mem_nil b)⟩
    · rw [innerLoop_succ_of_not_guard hg] at h
      simp at h

theorem innerLoop_final_fatal {cfg : WalkConfig} :
    ∀ {fuel : Nat} {s F : WalkState}, (innerLoop cfg fuel s).final? = some F →
      ∀ a, a ∈ (innerLoop cfg fuel s).trace → fatalErr a.outcome = none := by
  intro fuel
  induction fuel with
  | zero =>
    intro s F hF a ha
    simp [innerLoop_zero, Res.trace] at ha
  | succ fuel ih =>
    intro s F hF a ha
    by_cases hg : 0 ≤ s.current_hour ∧ s.daily_retry_count < max_daily_retries
    · rcases hs : innerStep cfg s with ⟨a0, s'⟩ | ⟨a0, e0⟩
      · rw [innerLoop_succ_next hg hs] at hF ha
        rw [Res.final?_consTrace] at hF
        rw [Res.trace_consTrace] at ha
        rcases List.mem_cons.mp ha with rfl | ha
        · exact innerStep_next_fatal hs
        · exact ih hF a ha
      · rw [innerLoop_succ_raise hg hs] at hF
        simp [Res.final?] at hF
    · rw [innerLoop_succ_of_not_guard hg] at ha
      simp [Res.trace] at ha

theorem outerLoop_raised {cfg : WalkConfig} :
    ∀ {fuel : Nat} {s : WalkState} {t : List Attempt} {e : ErrTok},
      outerLoop cfg fuel s = .raised t e →
      ∃ t' a, t = t' ++ [a] ∧ fatalErr a.outcome = some e ∧
        ∀ b, b ∈ t' → fatalErr b.outcome = none := by
  intro fuel
  induction fuel with
  | zero =>
    intro s t e h
    simp [outerLoop_zero] at h
  | succ fuel ih =>
    intro s t e h
    by_cases hg : cfg.start_date ≤ s.current_date ∧ s.daily_retry_count < max_daily_retries
    · rcases hI : innerLoop cfg (fuel + 1) { s with current_hour := 23, hourly_retry_count := 0 }
        with ⟨t0, s1⟩ | ⟨t0, e0⟩ | ⟨t0, s1⟩
      · rw [outerLoop_succ_oof hg hI] at h
        simp at h
      · rw [outerLoop_succ_raised hg hI] at h
        injection h with h1 h2
        subst h1
        subst h2
        exact innerLoop_raised hI
      · rw [outerLoop_succ_finished hg hI, Res.appendTrace_eq_raised] at h
        obtain ⟨t', rfl, h⟩ := h
        obtain ⟨t'', a, rfl, hfa, hall⟩ := ih h
        refine ⟨t0 ++ t'', a, by rw [List.append_assoc], hfa, ?_⟩
        intro b hb
        rcases List.mem_append.mp hb with hb | hb
        · exact innerLoop_final_fatal (by rw [hI]; rfl) b (by rw [hI]; exact hb)
        · exact hall b hb
    · rw [outerLoop_succ_of_not_guard hg] at h
      simp at h

theorem outerLoop_final_fatal {cfg : WalkConfig} :
    ∀ {fuel : Nat} {s F : WalkState}, (outerLoop cfg fuel s).final? = some F →
      ∀ a, a ∈ (outerLoop cfg fuel s).trace → fatalErr a.outcome = none := by
  intro fuel
  induction fuel with
  | zero =>
    intro s F hF a ha
    simp [outerLoop_zero, Res.trace] at ha
  | succ fuel ih =>
    intro s F hF a ha
    by_cases hg : cfg.start_date ≤ s.current_date ∧ s.daily_retry_count < max_daily_retries
    · rcases hI : innerLoop cfg (fuel + 1) { s with current_hour := 23, hourly_retry_count := 0 }
        with ⟨t0, s1⟩ | ⟨t0, e0⟩ | ⟨t0, s1⟩
      · rw [outerLoop_succ_oof hg hI] at ha
        simp only [Res.trace] at ha
        exact innerLoop_final_fatal (by rw [hI]; rfl) a (by rw [hI]; exact ha)
      · rw [outerLoop_succ_raised hg hI] at hF
        simp [Res.final?] at hF
      · rw [outerLoop_succ_finished hg hI] at hF ha
        rw [Res.final?_appendTrace] at hF
        rw [Res.trace_appendTrace] at ha
        rcases List.mem_append.mp ha with ha | ha
        · exact innerLoop_final_fatal (by rw [hI]; rfl) a (by rw [hI]; exact ha)
        · exact ih hF a ha
    · rw [outerLoop_succ_of_not_guard hg] at ha
      simp [Res.trace] at ha

/-! ### Walk-level helpers -/

theorem Inv_start (d : Date) : Inv ⟨d, 23, 0, 0⟩ :=
  ⟨le_refl 23, fun h => absurd h (by simp), Nat.zero_le _⟩

theorem walk_mem {cfg : WalkConfig} {fuel : Nat} :
    ∀ a, a ∈ (backward_fetching cfg fuel).trace →
      ∃ s0, Inv s0 ∧ s0.current_date ≤ cfg.end_date ∧ 0 ≤ s0.current_hour ∧
        s0.daily_retry_count < max_daily_retries ∧ a = mkAttempt cfg s0 := by
  intro a ha
  have h := (outerLoop_mem
    (P := fun s => Inv s ∧ s.current_date ≤ cfg.end_date)
    (fun s a s' hP h1 h2 hstep =>
      ⟨innerStep_next_Inv hP.1 h2 hstep,
        dle_trans (innerStep_next_post hstep).2.2 hP.2⟩)
    (fun s hP => ⟨⟨le_refl 23, fun hlt => absurd hlt (by simp), hP.1.2.2⟩, hP.2⟩)
    (fun s hP => ⟨dayRollover_Inv hP.1, dle_trans (dayRollover_date_le s) hP.2⟩)
    fuel ⟨cfg.end_date, 23, 0, 0⟩ ⟨Inv_start _, dle_refl _⟩).1 a ha
  obtain ⟨s0, ⟨hInv, hdate⟩, hh0, hdlt, heq⟩ := h
  exact ⟨s0, hInv, hdate, hh0, hdlt, heq⟩

theorem attemptPost_date_le (a : Attempt) : (attemptPost a).1 ≤ a.preDate := by
  rcases ho : a.outcome with ch | code | ⟨ch, k, tag⟩
  · simp only [attemptPost, ho]
    exact dle_refl _
  · by_cases hNSK : code = some "NoSuchKey"
    · by_cases hb : max_hourly_retries ≤ a.preHourly + 1
      · simp only [attemptPost, ho]
        rw [if_pos hNSK, if_pos hb]
        exact prevDay_le _
      · by_cases hu : a.preHour - 2 < 0
        · simp only [attemptPost, ho]
          rw [if_pos hNSK, if_neg hb, if_pos hu]
          exact prevDay_le _
        · simp only [attemptPost, ho]
          rw [if_pos hNSK, if_neg hb, if_neg hu]
          exact dle_refl _
    · simp only [attemptPost, ho]
      rw [if_neg hNSK]
      exact dle_refl _
  · simp only [attemptPost, ho]
    exact dle_refl _

/-- Closed-form value of `innerStep` on a success, line 59-78 of
`src/main.py`. -/
theorem innerStep_eq_success {cfg : WalkConfig} {s : WalkState} {ch : List (List Nat)}
    (hfetch : cfg.fetch s.current_date s.current_hour = .success ch) :
    innerStep cfg s = .next (mkAttempt cfg s)
      ⟨s.current_date, s.current_hour - 1, 0, s.daily_retry_count⟩ := by
  unfold innerStep
  split
  next ch' heq => rfl
  next code heq => exact absurd (heq.symm.trans hfetch) (by simp)
  next ch' k tag heq => exact absurd (heq.symm.trans hfetch) (by simp)

/-- Closed-form value of `innerStep` on a `NoSuchKey` miss, lines 82-107
of `src/main.py`. -/
theorem innerStep_eq_miss {cfg : WalkConfig} {s : WalkState}
    (hfetch : cfg.fetch s.current_date s.current_hour = .clientError (some "NoSuchKey")) :
    innerStep cfg s =
      if max_hourly_retries ≤ s.hourly_retry_count + 1 then
        .next (mkAttempt cfg s) ⟨prevDay s.current_date, 0, 0, s.daily_retry_count + 1⟩
      else if s.current_hour - 2 < 0 then
        .next (mkAttempt cfg s)
          ⟨prevDay s.current_date, 0, s.hourly_retry_count + 1, s.daily_retry_count + 1⟩
      else
        .next (mkAttempt cfg s)
          ⟨s.current_date, s.current_hour - 2, s.hourly_retry_count + 1,
            s.daily_retry_count⟩ := by
  unfold innerStep
  split
  next ch' heq => exact absurd (heq.symm.trans hfetch) (by simp)
  next code heq =>
    have hcode : code = some "NoSuchKey" := by
      have h2 := heq.symm.trans hfetch
      injection h2
    subst hcode
    rw [if_pos rfl]
  next ch' k tag heq => exact absurd (heq.symm.trans hfetch) (by simp)

theorem writeChunks_write_mem (D : Decompressor) :
    ∀ (st : D.State) (cs : List (List Nat)) (op : SinkOp), op ∈ (writeChunks D st cs).1 →
      ∃ b, op = SinkOp.write b := by
  intro st cs
  induction cs generalizing st with
  | nil =>
    intro op hop
    simp [writeChunks] at hop
  | cons c cs ih =>
    intro op hop
    simp only [writeChunks] at hop
    rcases List.mem_cons.mp hop with rfl | hop
    · exact ⟨_, rfl⟩
    · exact ih _ op hop

theorem fsync_not_mem_dropLast_successOps (D : Decompressor) (file : String)
    (chunks : List (List Nat)) : SinkOp.fsync ∉ (successOps D file chunks).dropLast := by
  have h : successOps D file chunks =
      (SinkOp.openTrunc file :: (writeChunks D D.init chunks).1 ++
        [SinkOp.write (D.decompress (writeChunks D D.init chunks).2 []).1,
          SinkOp.flush]) ++ [SinkOp.fsync] := by
    simp [successOps]
  rw [h, List.dropLast_concat]
  intro hmem
  rcases List.mem_cons.mp hmem with h1 | h1
  · exact absurd h1 (by simp)
  rcases List.mem_append.mp h1 with h2 | h2
  · obtain ⟨b, hb⟩ := writeChunks_write_mem D _ _ _ h2
    exact absurd hb (by simp)
  · simp at h2

theorem hourString_len_aux :
    ∀ n : Nat, n < 24 →
      (toString ((n : Nat) : Int)).length = if ((n : Nat) : Int) < 10 then 1 else 2 := by
  decide

theorem hourString_len {h : Int} (h0 : 0 ≤ h) (h23 : h ≤ 23) :
    (toString h).length = if h < 10 then 1 else 2 := by
  obtain ⟨n, rfl⟩ := Int.eq_ofNat_of_zero_le h0
  have hn : n < 24 := by omega
  exact hourString_len_aux n hn

/-! ### Concrete instances used in witnesses and counterexamples -/

/-- A trivial decompressor instance: each chunk decompresses to itself. -/
def idDecomp : Decompressor :=
  ⟨Unit, (), fun st c => (c, st)⟩

/-- A store in which every object is missing. -/
def cfgAllMiss : WalkConfig :=
  { coin := "BTC", output_path := "out", start_date := ⟨2025, 6, 1⟩,
    end_date := ⟨2025, 6, 30⟩,
    fetch := fun _ _ => .clientError (some "NoSuchKey"), D := idDecomp }

/-- A store in which every object exists, over a one-day range. -/
def cfgAllHit : WalkConfig :=
  { coin := "BTC", output_path := "out", start_date := ⟨2025, 6, 30⟩,
    end_date := ⟨2025, 6, 30⟩,
    fetch := fun _ _ => .success [[1, 2], [3]], D := idDecomp }

/-- A store whose object for hour 22 streams but the local write phase
fails with an unexpected exception after 5 completed operations — that
is, at the `os.fsync` call, with the flush already performed. -/
def cfgStreamFail : WalkConfig :=
  { coin := "BTC", output_path := "out", start_date := ⟨2025, 6, 1⟩,
    end_date := ⟨2025, 6, 30⟩,
    fetch := fun _ h => if h = 22 then .streamExn [[1, 2], [3]] 5 7 else .success [],
    D := idDecomp }

/-- A store that denies access at hour 21 and succeeds elsewhere. -/
def cfgDenied : WalkConfig :=
  { coin := "BTC", output_path := "out", start_date := ⟨2025, 6, 1⟩,
    end_date := ⟨2025, 6, 30⟩,
    fetch := fun _ h => if h = 21 then .clientError (some "AccessDenied") else .success [],
    D := idDecomp }

/-! ### The claims -/

/-- C1 (amended): on a `NoSuchKey` miss whose incremented hourly retry
counter reaches `max_hourly_retries`, the walker abandons the day: it
decrements `current_day` by one, sets `current_hour` to 0, resets
`hourly_retries` to 0, increments `daily_retries`, and restarts the
inner loop immediately for the new day with no second decrement of the
hour.  The hour-0 state does not force inner-loop exit at the next
check: while daily budget remains, the next check passes and the next
fetch is issued at hour 0 of the new day; the inner loop exits at the
next check exactly when `daily_retries` has reached
`max_daily_retries`. -/
theorem C1_abandon_budget (cfg : WalkConfig) (s : WalkState)
    (hfetch : cfg.fetch s.current_date s.current_hour = .clientError (some "NoSuchKey"))
    (hbudget : max_hourly_retries ≤ s.hourly_retry_count + 1) :
    innerStep cfg s =
      .next (mkAttempt cfg s) ⟨prevDay s.current_date, 0, 0, s.daily_retry_count + 1⟩ ∧
    (s.daily_retry_count + 1 < max_daily_retries →
      ∀ fuel, (innerLoop cfg (fuel + 1)
          ⟨prevDay s.current_date, 0, 0, s.daily_retry_count + 1⟩).trace.head? =
        some (mkAttempt cfg ⟨prevDay s.current_date, 0, 0, s.daily_retry_count + 1⟩)) ∧
    (max_daily_retries ≤ s.daily_retry_count + 1 →
      ∀ fuel, innerLoop cfg (fuel + 1)
          ⟨prevDay s.current_date, 0, 0, s.daily_retry_count + 1⟩ =
        .finished [] ⟨prevDay s.current_date, 0, 0, s.daily_retry_count + 1⟩) := by
  refine ⟨?_, ?_, ?_⟩
  · rw [innerStep_eq_miss hfetch, if_pos hbudget]
  · intro hdlt fuel
    have hg : (0:Int) ≤ (⟨prevDay s.current_date, 0, 0, s.daily_retry_count + 1⟩ :
          WalkState).current_hour ∧
        (⟨prevDay s.current_date, 0, 0, s.daily_retry_count + 1⟩ :
          WalkState).daily_retry_count < max_daily_retries :=
      ⟨le_refl 0, hdlt⟩
    rcases hs : innerStep cfg ⟨prevDay s.current_date, 0, 0, s.daily_retry_count + 1⟩
      with ⟨a, s'⟩ | ⟨a, e⟩
    · rw [innerLoop_succ_next hg hs, Res.trace_consTrace, (innerStep_next_cases hs).1]
      rfl
    · rw [innerLoop_succ_raise hg hs, (innerStep_raise_cases hs).1]
      rfl
  · intro hdge fuel
    exact innerLoop_succ_of_not_guard fun hgg => absurd hgg.2 (not_lt.mpr hdge)

/-- C1 counterexample to the claim as stated: in a walk over an all-miss
store (start 2025-06-01, end 2025-06-30), the attempt at index 2 (hour
19 of 2025-06-30, third consecutive miss) abandons the day with the
daily budget not yet exhausted, and the very next fetch issued (index 3)
is for hour 0 of the new day 2025-06-29.  Had `current_hour = 0` forced
inner-loop exit at the next check as the claim states, the walk would
have re-entered the day via the outer loop (lines 49-51) and the next
fetch would have been at hour 23. -/
theorem C1_counterexample :
    ((backward_fetching cfgAllMiss 10).trace.map fun a => (a.preDate, a.preHour)) =
      [(⟨2025, 6, 30⟩, 23), (⟨2025, 6, 30⟩, 21), (⟨2025, 6, 30⟩, 19),
        (⟨2025, 6, 29⟩, 0), (⟨2025, 6, 28⟩, 0)] ∧
    ((backward_fetching cfgAllMiss 10).trace.get? 2).map
        (fun a => (decide a.Abandons, a.preDaily)) = some (true, 0) ∧
    ((backward_fetching cfgAllMiss 10).trace.get? 3).map
        (fun a => (a.preDate, a.preHour)) = some (⟨2025, 6, 29⟩, 0) := by
  decide

theorem C1_abandon_budget_witness :
    cfgAllMiss.fetch ⟨2025, 6, 30⟩ 19 = .clientError (some "NoSuchKey") ∧
    max_hourly_retries ≤ 2 + 1 ∧
    innerStep cfgAllMiss ⟨⟨2025, 6, 30⟩, 19, 2, 0⟩ =
      .next (mkAttempt cfgAllMiss ⟨⟨2025, 6, 30⟩, 19, 2, 0⟩) ⟨⟨2025, 6, 29⟩, 0, 0, 1⟩ :=
  ⟨rfl, by decide,
    (C1_abandon_budget cfgAllMiss ⟨⟨2025, 6, 30⟩, 19, 2, 0⟩ rfl (by decide)).1⟩

/-- C2: on a `NoSuchKey` miss with the hourly budget not exhausted, the
walker skips backward by exactly 2 hours; if that skip takes the hour
below 0, the day is abandoned exactly as in the budget-exhausted case
(day decremented, hour set to 0, daily counter incremented) except that
the hourly retry counter keeps its incremented value instead of being
reset to 0. -/
theorem C2_miss_skip (cfg : WalkConfig) (s : WalkState)
    (hfetch : cfg.fetch s.current_date s.current_hour = .clientError (some "NoSuchKey"))
    (hbudget : s.hourly_retry_count + 1 < max_hourly_retries) :
    (0 ≤ s.current_hour - 2 →
      innerStep cfg s = .next (mkAttempt cfg s)
        ⟨s.current_date, s.current_hour - 2, s.hourly_retry_count + 1,
          s.daily_retry_count⟩) ∧
    (s.current_hour - 2 < 0 →
      innerStep cfg s = .next (mkAttempt cfg s)
        ⟨prevDay s.current_date, 0, s.hourly_retry_count + 1,
          s.daily_retry_count + 1⟩) := by
  constructor
  · intro hge
    rw [innerStep_eq_miss hfetch, if_neg (by omega), if_neg (not_lt.mpr hge)]
  · intro hu
    rw [innerStep_eq_miss hfetch, if_neg (by omega), if_pos hu]

theorem C2_miss_skip_witness :
    cfgAllMiss.fetch ⟨2025, 6, 29⟩ 0 = .clientError (some "NoSuchKey") ∧
    (0:Nat) + 1 < max_hourly_retries ∧ (0:Int) - 2 < 0 ∧
    innerStep cfgAllMiss ⟨⟨2025, 6, 29⟩, 0, 0, 1⟩ =
      .next (mkAttempt cfgAllMiss ⟨⟨2025, 6, 29⟩, 0, 0, 1⟩) ⟨⟨2025, 6, 28⟩, 0, 1, 2⟩ :=
  ⟨rfl, by decide, by decide,
    (C2_miss_skip cfgAllMiss ⟨⟨2025, 6, 29⟩, 0, 0, 1⟩ rfl (by decide)).2 (by decide)⟩

/-- C3: throughout every walk the TimeCursor invariant holds: every
fetch is issued with an hour in [0, 23], and the days of the issued
fetches never increase — they only decrease or stay fixed, starting at
or below `end_date`.  (The TimeCursor is the pair being fetched; between
iterations the raw loop variable transiently holds -1 or -2 as an
exit/underflow signal, but no fetch is issued then.) -/
theorem C3_cursor_invariant (cfg : WalkConfig) (fuel : Nat) :
    (∀ a, a ∈ (backward_fetching cfg fuel).trace →
      0 ≤ a.preHour ∧ a.preHour ≤ 23 ∧ a.preDate ≤ cfg.end_date) ∧
    (backward_fetching cfg fuel).trace.Pairwise fun a b => b.preDate ≤ a.preDate := by
  constructor
  · intro a ha
    obtain ⟨s0, hInv, hdate, hh0, -, rfl⟩ := walk_mem a ha
    exact ⟨hh0, hInv.1, hdate⟩
  · have hpair : (backward_fetching cfg fuel).trace.Pairwise postBound :=
      (outerLoop_chain fuel ⟨cfg.end_date, 23, 0, 0⟩ (Inv_start _)).2
    refine hpair.imp ?_
    intro a b hab
    exact dle_trans (cursorLE_date hab) (attemptPost_date_le a)

theorem C3_cursor_invariant_witness :
    0 ≤ (mkAttempt cfgAllMiss ⟨⟨2025, 6, 30⟩, 23, 0, 0⟩).preHour ∧
    (mkAttempt cfgAllMiss ⟨⟨2025, 6, 30⟩, 23, 0, 0⟩).preHour ≤ 23 ∧
    (mkAttempt cfgAllMiss ⟨⟨2025, 6, 30⟩, 23, 0, 0⟩).preDate ≤ cfgAllMiss.end_date :=
  (C3_cursor_invariant cfgAllMiss 10).1 _ (by decide)

/-- C4: a walk that terminates without a propagated error reports
"exhausted" exactly when `daily_retry_count` has reached
`max_daily_retries` at outer-loop exit, and "completed" otherwise; a
completed walk has moved its cursor past the start boundary with daily
budget remaining. -/
theorem C4_walk_result (cfg : WalkConfig) (fuel : Nat) (t : List Attempt) (F : WalkState)
    (h : backward_fetching cfg fuel = .finished t F) :
    (walkResultOf F = .exhausted ↔ max_daily_retries ≤ F.daily_retry_count) ∧
    (walkResultOf F = .completed →
      F.current_date < cfg.start_date ∧ F.daily_retry_count < max_daily_retries) := by
  have hng := @outerLoop_finished_not_guard cfg fuel ⟨cfg.end_date, 23, 0, 0⟩ t F h
  constructor
  · unfold walkResultOf
    split_ifs with hd
    · simp [hd]
    · simp [hd]
  · intro hc
    unfold walkResultOf at hc
    split_ifs at hc with hd
    refine ⟨?_, not_le.mp hd⟩
    exact dlt_of_not_le fun hle => hng ⟨hle, not_le.mp hd⟩

theorem C4_walk_result_witness :
    (walkResultOf ⟨⟨2025, 6, 27⟩, 0, 2, 3⟩ = .exhausted ↔
      max_daily_retries ≤ (⟨⟨2025, 6, 27⟩, 0, 2, 3⟩ : WalkState).daily_retry_count) ∧
    (walkResultOf ⟨⟨2025, 6, 27⟩, 0, 2, 3⟩ = .completed →
      (⟨⟨2025, 6, 27⟩, 0, 2, 3⟩ : WalkState).current_date < cfgAllMiss.start_date ∧
      (⟨⟨2025, 6, 27⟩, 0, 2, 3⟩ : WalkState).daily_retry_count < max_daily_retries) :=
  C4_walk_result cfgAllMiss 10 (backward_fetching cfgAllMiss 10).trace
    ⟨⟨2025, 6, 27⟩, 0, 2, 3⟩ (by decide)

/-- C5: with the hard-coded `max_daily_retries = 3`, once a trace prefix
contains 3 day-abandonments the walk issues no further fetch requests at
all, and a walk whose trace contains 3 abandonments terminates with
WalkResult "exhausted". -/
theorem C5_daily_budget (cfg : WalkConfig) (fuel : Nat) :
    (∀ t1 t2, (backward_fetching cfg fuel).trace = t1 ++ t2 →
      max_daily_retries ≤ countAbandons t1 → t2 = []) ∧
    (∀ t F, backward_fetching cfg fuel = .finished t F →
      max_daily_retries ≤ countAbandons t → walkResultOf F = .exhausted) := by
  constructor
  · intro t1 t2 h hcount
    cases t2 with
    | nil => rfl
    | cons b t2' =>
      have hpos := @outerLoop_pos_daily cfg fuel ⟨cfg.end_date, 23, 0, 0⟩ t1 b t2' h
      have hb : b ∈ (backward_fetching cfg fuel).trace := by
        rw [h]
        exact List.mem_append.mpr (Or.inr (List.mem_cons_self b t2'))
      obtain ⟨s0, -, -, -, hdlt, heq⟩ := walk_mem b hb
      have hb' : b.preDaily = s0.daily_retry_count := by
        rw [heq]
        rfl
      have hpos' : b.preDaily = 0 + countAbandons t1 := hpos
      omega
  · intro t F h hcount
    have hfin : (backward_fetching cfg fuel).final? = some F := by
      rw [h]
      rfl
    have hfd := @outerLoop_final_daily cfg fuel ⟨cfg.end_date, 23, 0, 0⟩ F hfin
    have htr : (backward_fetching cfg fuel).trace = t := by
      rw [h]
      rfl
    have hfd' : F.daily_retry_count = 0 + countAbandons (backward_fetching cfg fuel).trace :=
      hfd
    rw [htr] at hfd'
    unfold walkResultOf
    rw [if_pos (by omega)]

theorem C5_daily_budget_witness :
    walkResultOf ⟨⟨2025, 6, 27⟩, 0, 2, 3⟩ = .exhausted :=
  (C5_daily_budget cfgAllMiss 10).2 (backward_fetching cfgAllMiss 10).trace
    ⟨⟨2025, 6, 27⟩, 0, 2, 3⟩ (by decide) (by decide)

/-- C6: on a successful fetch the walker performs, in order: create or
truncate the local file, write every decompressed chunk, write the
decompressor's trailing flush output, flush the file, fsync it; then the
successor state has `hourly_retry_count = 0` (regardless of accumulated
prior misses) and `current_hour` decremented by exactly 1. -/
theorem C6_success_durable_write (cfg : WalkConfig) (s : WalkState) (ch : List (List Nat))
    (hfetch : cfg.fetch s.current_date s.current_hour = .success ch) :
    innerStep cfg s = .next
      { preDate := s.current_date, preHour := s.current_hour,
        preHourly := s.hourly_retry_count, preDaily := s.daily_retry_count,
        key := s3KeyOf cfg.coin s.current_date s.current_hour,
        localFile := localFileOf cfg.output_path cfg.coin s.current_date s.current_hour,
        ops := SinkOp.openTrunc
            (localFileOf cfg.output_path cfg.coin s.current_date s.current_hour) ::
          (writeChunks cfg.D cfg.D.init ch).1 ++
          [SinkOp.write (cfg.D.decompress (writeChunks cfg.D cfg.D.init ch).2 []).1,
            SinkOp.flush, SinkOp.fsync],
        outcome := .success ch }
      ⟨s.current_date, s.current_hour - 1, 0, s.daily_retry_count⟩ := by
  rw [innerStep_eq_success hfetch]
  unfold mkAttempt
  rw [hfetch]
  rfl

theorem C6_success_durable_write_witness :
    cfgAllHit.fetch ⟨2025, 6, 30⟩ 5 = .success [[1, 2], [3]] ∧
    innerStep cfgAllHit ⟨⟨2025, 6, 30⟩, 5, 2, 1⟩ = .next
      { preDate := ⟨2025, 6, 30⟩, preHour := 5, preHourly := 2, preDaily := 1,
        key := "market_data/20250630/5/l2Book/BTC.lz4",
        localFile := "out/20250630_5_BTC.txt",
        ops := [SinkOp.openTrunc "out/20250630_5_BTC.txt", SinkOp.write [1, 2],
          SinkOp.write [3], SinkOp.write [], SinkOp.flush, SinkOp.fsync],
        outcome := .success [[1, 2], [3]] }
      ⟨⟨2025, 6, 30⟩, 4, 0, 1⟩ :=
  ⟨rfl, by
    rw [C6_success_durable_write cfgAllHit ⟨⟨2025, 6, 30⟩, 5, 2, 1⟩ [[1, 2], [3]] rfl]
    decide⟩

/-- C7: a client error with any code other than `NoSuchKey`, and any
unexpected exception while streaming, terminates the walk immediately:
the offending attempt is the last one of the trace and its error is
propagated; conversely a walk never propagates a `NoSuchKey` error, and
every attempt of a walk that ends without raising had a non-fatal
outcome. -/
theorem C7_error_propagation (cfg : WalkConfig) (fuel : Nat) :
    (∀ t e, backward_fetching cfg fuel = .raised t e →
      (∃ t' a, t = t' ++ [a] ∧ fatalErr a.outcome = some e ∧
        ∀ b, b ∈ t' → fatalErr b.outcome = none) ∧
      e ≠ .clientErr (some "NoSuchKey")) ∧
    (∀ t F, backward_fetching cfg fuel = .finished t F →
      ∀ a, a ∈ t → fatalErr a.outcome = none) := by
  constructor
  · intro t e h
    have hr := @outerLoop_raised cfg fuel ⟨cfg.end_date, 23, 0, 0⟩ t e h
    refine ⟨hr, ?_⟩
    obtain ⟨t', a, -, hfa, -⟩ := hr
    intro heq
    subst heq
    rcases ho : a.outcome with ch | code | ⟨ch, k, tag⟩ <;> rw [ho] at hfa
    · simp [fatalErr] at hfa
    · rw [show fatalErr (FetchOutcome.clientError code) =
        (if code = some "NoSuchKey" then none else some (ErrTok.clientErr code)) from rfl] at hfa
      split_ifs at hfa with hNSK
      injection hfa with hfa
      injection hfa with hfa
      exact hNSK hfa
    · simp [fatalErr] at hfa
  · intro t F h a ha
    have hfin : (backward_fetching cfg fuel).final? = some F := by
      rw [h]
      rfl
    have ha' : a ∈ (backward_fetching cfg fuel).trace := by
      rw [h]
      exact ha
    exact outerLoop_final_fatal hfin a ha'

theorem C7_error_propagation_witness :
    (∃ t' a, (backward_fetching cfgDenied 10).trace = t' ++ [a] ∧
      fatalErr a.outcome = some (ErrTok.clientErr (some "AccessDenied")) ∧
      ∀ b, b ∈ t' → fatalErr b.outcome = none) ∧
    ErrTok.clientErr (some "AccessDenied") ≠ ErrTok.clientErr (some "NoSuchKey") :=
  (C7_error_propagation cfgDenied 10).1 (backward_fetching cfgDenied 10).trace
    (ErrTok.clientErr (some "AccessDenied")) (by decide)

/-- C8: a failed fetch attempt performs no destructive operation on the
local file of the failing hour: on any store client error (in particular
a missing object) the file is never opened, created or modified at all,
and on an unexpected write-phase exception — which may strike at any of
the operations, from the `open` itself through the chunk writes, the
trailing write and the flush, up to and including the `os.fsync` call —
the operations actually performed form a prefix of the durable success
sequence that never contains the final fsync, leaving the file clearly
incomplete by the spec's own durability criterion (write, flush, then
durable sync). -/
theorem C8_failure_leaves_no_file (cfg : WalkConfig) (fuel : Nat) :
    ∀ a, a ∈ (backward_fetching cfg fuel).trace →
      (∀ code, a.outcome = .clientError code → a.ops = []) ∧
      (∀ ch k tag, a.outcome = .streamExn ch k tag →
        SinkOp.fsync ∉ a.ops ∧
        ∃ n, a.ops = (successOps cfg.D a.localFile ch).take n) := by
  intro a ha
  obtain ⟨s0, -, -, -, -, rfl⟩ := walk_mem a ha
  constructor
  · intro code hco
    have hf2 : cfg.fetch s0.current_date s0.current_hour = .clientError code := hco
    show opsFor cfg.D
        (localFileOf cfg.output_path cfg.coin s0.current_date s0.current_hour)
        (cfg.fetch s0.current_date s0.current_hour) = []
    rw [hf2]
    rfl
  · intro ch k tag hco
    have hf2 : cfg.fetch s0.current_date s0.current_hour = .streamExn ch k tag := hco
    have hops : (mkAttempt cfg s0).ops =
        ((successOps cfg.D (mkAttempt cfg s0).localFile ch).dropLast).take k := by
      show opsFor cfg.D
          (localFileOf cfg.output_path cfg.coin s0.current_date s0.current_hour)
          (cfg.fetch s0.current_date s0.current_hour) = _
      rw [hf2]
      rfl
    constructor
    · rw [hops]
      intro hmem
      exact fsync_not_mem_dropLast_successOps cfg.D (mkAttempt cfg s0).localFile ch
        (List.take_subset _ _ hmem)
    · refine ⟨min k ((successOps cfg.D (mkAttempt cfg s0).localFile ch).length - 1), ?_⟩
      rw [hops, List.dropLast_eq_take, List.take_take]

theorem C8_failure_leaves_no_file_witness :
    (mkAttempt cfgAllMiss ⟨⟨2025, 6, 30⟩, 23, 0, 0⟩).ops = [] ∧
    (SinkOp.fsync ∉ (mkAttempt cfgStreamFail ⟨⟨2025, 6, 30⟩, 22, 0, 0⟩).ops ∧
      ∃ n, (mkAttempt cfgStreamFail ⟨⟨2025, 6, 30⟩, 22, 0, 0⟩).ops =
        (successOps cfgStreamFail.D
          (mkAttempt cfgStreamFail ⟨⟨2025, 6, 30⟩, 22, 0, 0⟩).localFile [[1, 2], [3]]).take n) :=
  ⟨((C8_failure_leaves_no_file cfgAllMiss 10) _ (by decide)).1 (some "NoSuchKey") rfl,
    ((C8_failure_leaves_no_file cfgStreamFail 10) _ (by decide)).2 [[1, 2], [3]] 5 7 rfl⟩

/-- C9: every fetch attempt uses the remote key
`market_data/{YYYYMMDD}/{hour}/l2Book/{COIN}.lz4` and the local path
`{destination}/{YYYYMMDD}_{hour}_{COIN}.txt`, both derived
deterministically from (coin, day, hour); the hour is rendered without
zero-padding — one digit for hours 0-9, two digits for 10-23. -/
theorem C9_fetch_paths (cfg : WalkConfig) (fuel : Nat) :
    ∀ a, a ∈ (backward_fetching cfg fuel).trace →
      a.key = "market_data/" ++ a.preDate.yyyymmdd ++ "/" ++ toString a.preHour ++
        "/l2Book/" ++ cfg.coin ++ ".lz4" ∧
      a.localFile = cfg.output_path ++ "/" ++ a.preDate.yyyymmdd ++ "_" ++
        toString a.preHour ++ "_" ++ cfg.coin ++ ".txt" ∧
      (toString a.preHour).length = if a.preHour < 10 then 1 else 2 := by
  intro a ha
  obtain ⟨s0, hInv, -, hh0, -, rfl⟩ := walk_mem a ha
  exact ⟨rfl, rfl, hourString_len hh0 hInv.1⟩

theorem C9_fetch_paths_witness :
    (mkAttempt cfgAllMiss ⟨⟨2025, 6, 30⟩, 23, 0, 0⟩).key =
      "market_data/" ++ Date.yyyymmdd ⟨2025, 6, 30⟩ ++ "/" ++ toString (23 : Int) ++
        "/l2Book/" ++ cfgAllMiss.coin ++ ".lz4" ∧
    (mkAttempt cfgAllMiss ⟨⟨2025, 6, 30⟩, 23, 0, 0⟩).localFile =
      cfgAllMiss.output_path ++ "/" ++ Date.yyyymmdd ⟨2025, 6, 30⟩ ++ "_" ++
        toString (23 : Int) ++ "_" ++ cfgAllMiss.coin ++ ".txt" ∧
    (toString (23 : Int)).length = if (23 : Int) < 10 then 1 else 2 :=
  C9_fetch_paths cfgAllMiss 10 _ (by decide)

/-- C10: a day that is entered via a day-abandonment (hourly budget
exhaustion or hour underflow) is only ever fetched at hour 0: every
later attempt of the walk whose day equals the day the abandoning
attempt moved to has hour exactly 0 — hours 23 down to 1 of such a day
are never requested. -/
theorem C10_abandoned_day_hour0 (cfg : WalkConfig) (fuel : Nat) :
    ∀ t1 a t2, (backward_fetching cfg fuel).trace = t1 ++ a :: t2 →
      a.Abandons → ∀ b, b ∈ t2 → b.preDate = prevDay a.preDate → b.preHour = 0 := by
  intro t1 a t2 h hab b hb hdate
  have hpair0 : (backward_fetching cfg fuel).trace.Pairwise postBound :=
    (outerLoop_chain fuel ⟨cfg.end_date, 23, 0, 0⟩ (Inv_start _)).2
  rw [h] at hpair0
  have hR : postBound a b :=
    (List.pairwise_cons.mp (List.pairwise_append.mp hpair0).2.1).1 b hb
  have hR' : cursorLE (b.preDate, b.preHour) (attemptPost a) := hR
  rw [Attempt.abandons_post hab] at hR'
  have hbmem : b ∈ (backward_fetching cfg fuel).trace := by
    rw [h]
    exact List.mem_append.mpr (Or.inr (List.mem_cons.mpr (Or.inr hb)))
  obtain ⟨s0, -, -, hh0, -, rfl⟩ := walk_mem b hbmem
  rcases hR' with hlt | ⟨-, hle⟩
  · rw [hdate] at hlt
    exact absurd hlt (dlt_irrefl _)
  · have hge : (0 : Int) ≤ (mkAttempt cfg s0).preHour := hh0
    show (mkAttempt cfg s0).preHour = 0
    omega

theorem C10_abandoned_day_hour0_witness :
    (mkAttempt cfgAllMiss ⟨⟨2025, 6, 29⟩, 0, 0, 1⟩).preHour = 0 :=
  C10_abandoned_day_hour0 cfgAllMiss 10
    [mkAttempt cfgAllMiss ⟨⟨2025, 6, 30⟩, 23, 0, 0⟩,
      mkAttempt cfgAllMiss ⟨⟨2025, 6, 30⟩, 21, 1, 0⟩]
    (mkAttempt cfgAllMiss ⟨⟨2025, 6, 30⟩, 19, 2, 0⟩)
    [mkAttempt cfgAllMiss ⟨⟨2025, 6, 29⟩, 0, 0, 1⟩,
      mkAttempt cfgAllMiss ⟨⟨2025, 6, 28⟩, 0, 1, 2⟩]
    (by decide) (by decide)
    (mkAttempt cfgAllMiss ⟨⟨2025, 6, 29⟩, 0, 0, 1⟩)
    (by decide) (by decide)

end HyperliquidFetcher
